import Mathlib

/-!
Verification of the certshop export engine (export source file, `package main`)
against its specification.

The embedding below translates the relevant Go code into Lean:

* paths are represented in the canonical (cleaned) component form produced by
  `filepath.Clean`: a flag for rootedness plus the list of path components
  (`GoPath`); `goClean` embeds `filepath.Clean`, `GoPath.base` embeds
  `filepath.Base`, `GoPath.dir` embeds `filepath.Dir` on such canonical paths;
* the filesystem and the cryptographic helpers that live outside the visible
  slice of the repository (`ReadCert`, `MarshalCert`, `ReadKey`, `SaveKey`) are
  oracles collected in an environment record `Env`;
* each export run produces a trace of observable events (`Event`) plus an
  outcome; `log.Fatalf` in the source calls `os.Exit`, which terminates the
  process immediately WITHOUT running deferred functions, so a fatal branch is
  embedded as an early return with outcome `Outcome.exited` that skips every
  `defer`-registered action that would run on a normal return;
* the unbounded `for` loops walking the ancestor chain are embedded with an
  explicit fuel parameter; running out of fuel yields `WalkOut.fuelOut`
  (outcome `Outcome.hung`), which models divergence of the loop.
-/

set_option linter.unusedVariables false

/-- A filesystem path in the canonical form produced by `filepath.Clean`:
`abs` is true for rooted paths, `comps` is the list of path components.
The rendering of `⟨false, []⟩` is `"."` and of `⟨true, []⟩` is `"/"`. -/
structure GoPath where
  abs : Bool
  comps : List String
deriving DecidableEq, Repr

/-- Split a character list at `'/'` separators (keeping empty fields),
mirroring how `filepath.Clean` scans its input component by component. -/
def splitSlashAux : List Char → List Char → List String
  | [], acc => [String.mk acc.reverse]
  | c :: cs, acc =>
    if c = '/' then String.mk acc.reverse :: splitSlashAux cs []
    else splitSlashAux cs (c :: acc)

/-- Split a string at `'/'` separators. -/
def splitSlash (s : String) : List String :=
  splitSlashAux s.data []

/-- Whether a path string is rooted (starts with `'/'`). -/
def isAbsStr (s : String) : Bool :=
  match s.data with
  | '/' :: _ => true
  | _ => false

/-- One step of the `filepath.Clean` component scan: drop empty and `"."`
components, resolve `".."` against the accumulated (reversed) prefix. -/
def goCleanStep (abs : Bool) (acc : List String) (c : String) : List String :=
  if c = "" ∨ c = "." then acc
  else if c = ".." then
    match acc with
    | [] => if abs then [] else [".."]
    | h :: t => if h = ".." then c :: acc else t
  else c :: acc

/-- Embedding of `filepath.Clean` (Unix rules): parse a path string into its
canonical component form. -/
def goClean (s : String) : GoPath :=
  let a := isAbsStr s
  ⟨a, ((splitSlash s).foldl (goCleanStep a) []).reverse⟩

/-- Interleave components with `'/'`. -/
def interc : List String → String
  | [] => ""
  | [c] => c
  | c :: cs => c ++ "/" ++ interc cs

/-- Render a canonical path back to the string `filepath.Clean` would return. -/
def GoPath.render (p : GoPath) : String :=
  if p.abs then "/" ++ interc p.comps
  else
    match p.comps with
    | [] => "."
    | cs => interc cs

/-- Embedding of `filepath.Base` on canonical paths: the last component, or
the sentinel `"."` / `"/"` for the empty relative / rooted path. -/
def GoPath.base (p : GoPath) : String :=
  match p.comps.getLast? with
  | some c => c
  | none => if p.abs then "/" else "."

/-- Embedding of `filepath.Dir` on canonical paths: drop the last component;
`"."` and `"/"` are fixed points. -/
def GoPath.dir (p : GoPath) : GoPath :=
  ⟨p.abs, p.comps.dropLast⟩

/-- Embedding of `filepath.Join p name` for a plain file name `name`
(no separator, not `""`/`"."`/`".."`), which is the only way the export code
joins onto an already-canonical path: append one component. -/
def joinName (p : GoPath) (name : String) : GoPath :=
  ⟨p.abs, p.comps ++ [name]⟩

/-- Embedding of `filepath.Base` at the string level (used where the source
applies `Base` to a raw flag string). -/
def goBase (s : String) : String :=
  if s = "" then "."
  else
    let r := s.data.reverse.dropWhile (fun c => c = '/')
    if r = [] then "/"
    else String.mk (r.takeWhile (fun c => c ≠ '/')).reverse

/-- Embedding of `filepath.Join` at the string level (two arguments). -/
def goJoin (a b : String) : String :=
  if a = "" then (goClean b).render else (goClean (a ++ "/" ++ b)).render

/-- Join used for archive entry names: `filepath.Join(name, entry)` rendered
as a string. -/
def entryJoin (a b : String) : String :=
  (goClean (a ++ "/" ++ b)).render

/-- Modelled from the spec (and `NilString` in certshop.go, which the missing
flag-definition file instantiates for the export flags): the reserved
out-of-band marker used as the default of string flags to detect "no user
input provided"; deliberately distinct from the empty string. The Go raw
string is `` `\x00` ``, i.e. the four characters backslash, x, 0, 0. -/
def nilString : String := "\\x00"

/-- Default of the `-export-format` flag (`parseExportFlags`). -/
def defaultExportFormat : String := "tgz"

/-- Kind of filesystem object reported by `os.Stat`; `none` at the `Env.stat`
oracle models a stat error (file absent). -/
inductive FKind
  | file
  | dir
deriving DecidableEq, Repr

/-- Errors produced by `findFile`: a propagated stat error, or the composed
path resolving to a directory. -/
inductive FindErr
  | statErr (path : String)
  | isDirErr (path : String)
deriving DecidableEq, Repr

/-- Observable events of an export run. -/
inductive Event
  | statE (path : String)
  | readE (path : String)
  | writeEntry (name : String) (data : List Nat) (mode : Nat)
  | tmpCreate (path : String)
  | tmpWrite (path : String) (data : List Nat)
  | tmpRemove (path : String)
  | execTool (args : List String)
  | openSink
  | closeSink
  | fatal (msg : String)
deriving DecidableEq, Repr

/-- Final status of a run: normal return, process terminated by
`log.Fatalf`/`os.Exit`, or a non-terminating loop (fuel exhausted). -/
inductive Outcome
  | ok
  | exited
  | hung
deriving DecidableEq, Repr

/-- Result of a chain-walk loop. -/
inductive WalkOut
  | ok (data : List Nat)
  | readFail
  | fuelOut
deriving DecidableEq, Repr

/-- Environment of oracles for the filesystem and the repository code outside
the visible slice.
`certBytes p` models `MarshalCert(ReadCert(p))` (`none` = the read fails,
which is fatal: "each file read that fails aborts the whole walk"), and
`keyBytes p passIn passOut` models the bytes `SaveKey` writes for the key
loaded by `ReadKey(p, passIn)` and re-encrypted under `passOut` (`none` = the
load/decrypt fails, which is fatal). Both are modelled from the spec.
`tmpFile` is the name `ioutil.TempFile` allocates (`none` = creation error),
and the three booleans give the success of the temp-file write, of the
`openssl` subprocess, and of `os.Remove` on the temp file. -/
structure Env where
  stat : String → Option FKind
  certBytes : String → Option (List Nat)
  keyBytes : String → String → String → Option (List Nat)
  tmpFile : Option String
  tmpWriteOk : Bool
  runOk : Bool
  removeOk : Bool

/-- The resolved export flags (`exportFlags` struct); `path` is stored in the
canonical form that `parseExportFlags` produces via `filepath.Clean`. -/
structure ExportFlags where
  path : GoPath
  exportCrt : Bool
  exportKey : Bool
  exportCA : String
  exportFormat : String
  passIn : String
  passOut : String
deriving DecidableEq, Repr

/-- ASCII lower-casing of one character (mirrors what `strings.ToLower` does
on the ASCII-only format selectors). -/
def charLower (c : Char) : Char :=
  if c.toNat ≥ 65 ∧ c.toNat ≤ 90 then Char.ofNat (c.toNat + 32) else c

/-- Embedding of `strings.ToLower` (ASCII range, which covers every format
selector the code compares against). -/
def strToLower (s : String) : String :=
  String.mk (s.data.map charLower)

/-- Fatal-log messages of the export source, kept verbatim. -/
def failFindCA : String := "Failed to find ca certificate"

/-- Fatal message modelling the `ReadCert` failure path (missing code,
modelled from the spec: a failed read aborts the walk). -/
def failReadCert : String := "Failed to read certificate"

/-- Fatal message modelling the `ReadKey` failure path (missing code,
modelled from the spec: wrong/missing password is a fatal decryption error). -/
def failReadKey : String := "Failed to read key"

/-- Verbatim message of the mandatory output-password check in `exportP12`. -/
def failPassOut : String := "-passOut flag required for .p12 format"

/-- Verbatim message of the temp-file creation failure in `exportP12`. -/
def failTmpCreate : String := "Failed to create temporary cert file"

/-- Verbatim message of the temp-file write failure in `exportP12`. -/
def failTmpWrite : String := "Failed to write to temporary cert file"

/-- Verbatim message of the `openssl` invocation failure in `exportP12`. -/
def failRun : String := "Error running openssl"

/-- Verbatim message of the deferred `os.Remove` failure in `exportP12`. -/
def failTmpRemove : String := "Failed to close temporary cert file"

/-- Embedding of `findFile` (export source): clean the path; if it stats as a
regular file return it; if it stats as a directory, compose
`path/Base(path)+suffix` and require that to stat as a regular file; propagate
stat errors. Returns the emitted stat events alongside the result. -/
def findFile (stat : String → Option FKind) (path suffix : String) :
    List Event × Except FindErr String :=
  let p := goClean path
  match stat p.render with
  | none => ([Event.statE p.render], Except.error (FindErr.statErr p.render))
  | some FKind.file => ([Event.statE p.render], Except.ok p.render)
  | some FKind.dir =>
    let p2 := joinName p (GoPath.base p ++ suffix)
    match stat p2.render with
    | none =>
      ([Event.statE p.render, Event.statE p2.render],
        Except.error (FindErr.statErr p2.render))
    | some FKind.dir =>
      ([Event.statE p.render, Event.statE p2.render],
        Except.error (FindErr.isDirErr p2.render))
    | some FKind.file =>
      ([Event.statE p.render, Event.statE p2.render], Except.ok p2.render)

/-- Embedding of the chain-walk loop of `exportPEM`:
`for certPath := flags.path; filepath.Base(certPath) != "."; certPath = filepath.Dir(certPath)`
reading `Join(certPath, Base(certPath)+".pem")` each iteration. -/
def walkCertsPEM (cb : String → Option (List Nat)) :
    Nat → GoPath → List Event × WalkOut
  | 0, p =>
    if GoPath.base p = "." then ([], WalkOut.ok [])
    else ([], WalkOut.fuelOut)
  | fuel + 1, p =>
    if GoPath.base p = "." then ([], WalkOut.ok [])
    else
      let file := GoPath.render (joinName p (GoPath.base p ++ ".pem"))
      match cb file with
      | none => ([Event.readE file], WalkOut.readFail)
      | some bs =>
        match walkCertsPEM cb fuel (GoPath.dir p) with
        | (evs, WalkOut.ok rest) => (Event.readE file :: evs, WalkOut.ok (bs ++ rest))
        | (evs, r) => (Event.readE file :: evs, r)

/-- Embedding of the chain-walk loop of `exportP12`: identical body, but the
loop condition compares the whole current path against `"."`
(`for certPath := flags.path; certPath != "."; ...`). -/
def walkCertsP12 (cb : String → Option (List Nat)) :
    Nat → GoPath → List Event × WalkOut
  | 0, p =>
    if GoPath.render p = "." then ([], WalkOut.ok [])
    else ([], WalkOut.fuelOut)
  | fuel + 1, p =>
    if GoPath.render p = "." then ([], WalkOut.ok [])
    else
      let file := GoPath.render (joinName p (GoPath.base p ++ ".pem"))
      match cb file with
      | none => ([Event.readE file], WalkOut.readFail)
      | some bs =>
        match walkCertsP12 cb fuel (GoPath.dir p) with
        | (evs, WalkOut.ok rest) => (Event.readE file :: evs, WalkOut.ok (bs ++ rest))
        | (evs, r) => (Event.readE file :: evs, r)

/-- The certificate files the chain walk visits from `p`, leaf first: the
node's own `<base>.pem` file comes first, then its parent's, and so on
(bounded by the component count `n`). -/
def chainFilesN : Nat → GoPath → List String
  | 0, _ => []
  | n + 1, p =>
    if p.comps = [] then []
    else GoPath.render (joinName p (GoPath.base p ++ ".pem")) :: chainFilesN n (GoPath.dir p)

/-- The certificate files of the ancestor chain of `p`, leaf first. -/
def chainFiles (p : GoPath) : List String :=
  chainFilesN p.comps.length p

/-- The concatenated chain bytes, leaf first (bounded variant). -/
def chainDataN (cb : String → Option (List Nat)) : Nat → GoPath → List Nat
  | 0, _ => []
  | n + 1, p =>
    if p.comps = [] then []
    else
      (cb (GoPath.render (joinName p (GoPath.base p ++ ".pem")))).getD [] ++
        chainDataN cb n (GoPath.dir p)

/-- The concatenated certificate bytes of the ancestor chain of `p`,
leaf first. -/
def chainData (cb : String → Option (List Nat)) (p : GoPath) : List Nat :=
  chainDataN cb p.comps.length p

/-- The optional arguments `exportP12` appends after the fixed prefix:
`-passin` when an input password was supplied, then `-aes256 -passout` when an
output password was supplied (the latter branch is only reached when it was,
since its absence is fatal). -/
def p12ArgsTail (flags : ExportFlags) : List String :=
  (if flags.passIn ≠ nilString then ["-passin", "pass:" ++ flags.passIn] else []) ++
    (if flags.passOut = nilString then []
    else ["-aes256", "-passout", "pass:" ++ flags.passOut])

/-- The `openssl pkcs12` argument list `exportP12` builds before the `-in`
argument is appended: the `-name`/`-inkey` pairs are unconditional, and the
password arguments follow per `p12ArgsTail`. -/
def p12Args (flags : ExportFlags) : List String :=
  ["pkcs12", "-export", "-name", GoPath.base flags.path,
    "-inkey", GoPath.render (joinName flags.path (GoPath.base flags.path ++ "-key.pem"))] ++
    p12ArgsTail flags

/-- Embedding of `exportP12` (export source). Returns the event trace, the
outcome, and whether the temporary bundle file still exists when the function
(or the process) is done. Faithful points worth noting:

* the missing-output-password check fires before any file access;
* the chain walk runs, then (when `exportCA` is non-empty) the external CA
  certificate is read at `Join(exportCA, Base(exportCA)+".pem")` — the source
  re-applies the directory naming convention to the string in `exportCA`,
  which at this point holds the already-resolved certificate file path;
* the deferred `os.Remove` of the temp file is registered only after the
  temp-file write succeeds, and `log.Fatalf` exits the process via `os.Exit`,
  which does not run deferred functions: therefore the temp file survives both
  a failed temp-file write and a failed `openssl` invocation, and is removed
  only on the normal return path (where a failed removal is escalated as a
  fatal error). -/
def exportP12 (env : Env) (fuel : Nat) (flags : ExportFlags) :
    List Event × Outcome × Bool :=
  if flags.passOut = nilString then
    ([Event.fatal failPassOut], Outcome.exited, false)
  else
    match walkCertsP12 env.certBytes fuel flags.path with
    | (wEvs, WalkOut.fuelOut) => (wEvs, Outcome.hung, false)
    | (wEvs, WalkOut.readFail) =>
      (wEvs ++ [Event.fatal failReadCert], Outcome.exited, false)
    | (wEvs, WalkOut.ok chain) =>
      match
        (if flags.exportCA ≠ "" then
          let caPath := goJoin flags.exportCA (goBase flags.exportCA ++ ".pem")
          match env.certBytes caPath with
          | none => (([Event.readE caPath] : List Event), none)
          | some cb => ([Event.readE caPath], some (chain ++ cb))
        else ([], some chain)) with
      | (caEvs, none) =>
        (wEvs ++ caEvs ++ [Event.fatal failReadCert], Outcome.exited, false)
      | (caEvs, some data) =>
        match env.tmpFile with
        | none =>
          (wEvs ++ caEvs ++ [Event.fatal failTmpCreate], Outcome.exited, false)
        | some tmp =>
          if env.tmpWriteOk = false then
            (wEvs ++ caEvs ++ [Event.tmpCreate tmp, Event.fatal failTmpWrite],
              Outcome.exited, true)
          else
            let args := p12Args flags ++ ["-in", tmp]
            if env.runOk = false then
              (wEvs ++ caEvs ++
                [Event.tmpCreate tmp, Event.tmpWrite tmp data,
                  Event.execTool args, Event.fatal failRun],
                Outcome.exited, true)
            else
              if env.removeOk then
                (wEvs ++ caEvs ++
                  [Event.tmpCreate tmp, Event.tmpWrite tmp data,
                    Event.execTool args, Event.tmpRemove tmp],
                  Outcome.ok, false)
              else
                (wEvs ++ caEvs ++
                  [Event.tmpCreate tmp, Event.tmpWrite tmp data,
                    Event.execTool args, Event.fatal failTmpRemove],
                  Outcome.exited, true)

/-- Embedding of `exportPEM` (export source): write `ca.pem` when `exportCA`
is non-empty (reading the resolved CA path directly), write `cert.pem` as the
leaf-first chain concatenation when `-export-crt` was given, and write
`key.pem` when `-export-key` was given and the conventional key file stats
successfully (its absence is silently skipped). Entry modes: `0644` (420) for
certificates as in the source; the key entry mode (inside the missing
`SaveKey`) is modelled from the spec as owner read/write `0600` (384).
The embedding is split in two: `exportPEMrest` is the part of the function
body after the `ca.pem` branch (the chain walk with its `cert.pem` entry, then
the key branch), and `exportPEM` prepends the `ca.pem` branch. -/
def exportPEMrest (env : Env) (fuel : Nat) (flags : ExportFlags) (name : String) :
    List Event × Outcome :=
  match
    (if flags.exportCrt then
      match walkCertsPEM env.certBytes fuel flags.path with
      | (evs, WalkOut.ok data) =>
        (evs ++ [Event.writeEntry (entryJoin name "cert.pem") data 420],
          WalkOut.ok data)
      | (evs, r) => (evs, r)
    else ([], WalkOut.ok [])) with
  | (crtEvs, WalkOut.fuelOut) => (crtEvs, Outcome.hung)
  | (crtEvs, WalkOut.readFail) =>
    (crtEvs ++ [Event.fatal failReadCert], Outcome.exited)
  | (crtEvs, WalkOut.ok _) =>
    if flags.exportKey then
      let kpath := GoPath.render (joinName flags.path (name ++ "-key.pem"))
      match env.stat kpath with
      | some _ =>
        match env.keyBytes kpath flags.passIn flags.passOut with
        | none =>
          (crtEvs ++ [Event.statE kpath, Event.readE kpath, Event.fatal failReadKey],
            Outcome.exited)
        | some kb =>
          (crtEvs ++
            [Event.statE kpath, Event.readE kpath,
              Event.writeEntry (entryJoin name "key.pem") kb 384],
            Outcome.ok)
      | none => (crtEvs ++ [Event.statE kpath], Outcome.ok)
    else (crtEvs, Outcome.ok)

def exportPEM (env : Env) (fuel : Nat) (flags : ExportFlags) :
    List Event × Outcome :=
  let name := GoPath.base flags.path
  match
    (if flags.exportCA ≠ "" then
      match env.certBytes flags.exportCA with
      | none => (([Event.readE flags.exportCA, Event.fatal failReadCert] : List Event), false)
      | some ca =>
        ([Event.readE flags.exportCA,
          Event.writeEntry (entryJoin name "ca.pem") ca 420], true)
    else ([], true)) with
  | (caEvs, false) => (caEvs, Outcome.exited)
  | (caEvs, true) =>
    match exportPEMrest env fuel flags name with
    | (evs, o) => (caEvs ++ evs, o)

/-- Embedding of `exportCertificate` (export source), the export orchestrator:

* when `flags.exportCA != ""` (note: compared against the EMPTY string, not
  against the `nilString` sentinel that an unsupplied flag holds), resolve the
  CA path with `findFile` and replace `flags.exportCA` with the result; a
  resolution failure is fatal and happens before the output sink is opened;
* open the output sink (`newTgzWriter(os.Stdout)`) and register its deferred
  close;
* dispatch on `strings.ToLower(flags.exportFormat)`: `"pem"` runs the archive
  encoder, `"p12"` the PKCS#12 encoder, and any other value (including the
  flag default `"tgz"`) matches no case of the switch and runs no encoder;
* the deferred `writer.close()` runs only on a normal return — a fatal exit
  inside an encoder goes through `os.Exit`, which skips deferred calls. -/
def exportCertificate (env : Env) (fuel : Nat) (flags : ExportFlags) :
    List Event × Outcome × Bool :=
  match
    (if flags.exportCA ≠ "" then
      match findFile env.stat flags.exportCA ".pem" with
      | (evs, Except.error _) => (evs ++ [Event.fatal failFindCA], none)
      | (evs, Except.ok p) => (evs, some { flags with exportCA := p })
    else ([], some flags)) with
  | (caEvs, none) => (caEvs, Outcome.exited, false)
  | (caEvs, some flags2) =>
    let fmt := strToLower flags2.exportFormat
    let enc : List Event × Outcome × Bool :=
      if fmt = "pem" then
        match exportPEM env fuel flags2 with
        | (evs, o) => (evs, o, false)
      else if fmt = "p12" then exportP12 env fuel flags2
      else ([], Outcome.ok, false)
    match enc with
    | (encEvs, Outcome.ok, tmp) =>
      (caEvs ++ [Event.openSink] ++ encEvs ++ [Event.closeSink], Outcome.ok, tmp)
    | (encEvs, o, tmp) => (caEvs ++ [Event.openSink] ++ encEvs, o, tmp)

/-- Whether an event is the creation of a temporary bundle file. -/
def isTmpCreate : Event → Bool
  | Event.tmpCreate _ => true
  | _ => false

/-- Boolean check that a trace contains no temp-file creation. -/
def noTmpCreate (evs : List Event) : Bool :=
  evs.all (fun e => !(isTmpCreate e))

/-- A certificate-byte oracle that succeeds everywhere with empty bytes
(used for concrete walk evaluations). -/
def cb0 : String → Option (List Nat) := fun _ => some []

/-- Path of the example target `leaf` (a single-component relative path). -/
def pathLeaf : GoPath := ⟨false, ["leaf"]⟩

/-- Path `root` (single component): its basename equals the rendered path. -/
def pRoot : GoPath := ⟨false, ["root"]⟩

/-- The absolute path `/a`. -/
def pAbsA : GoPath := ⟨true, ["a"]⟩

/-- The three-level example target `root/intermediate/leaf`. -/
def pChain : GoPath := ⟨false, ["root", "intermediate", "leaf"]⟩

/-- Certificate oracle with only `leaf/leaf.pem` present (bytes `[1]`). -/
def cbLeaf : String → Option (List Nat) :=
  fun s => if s = "leaf/leaf.pem" then some [1] else none

/-- Certificate oracle for the `root/intermediate/leaf` tree: distinct bytes
for the leaf, intermediate and root certificate files. -/
def cbChain : String → Option (List Nat) :=
  fun s =>
    if s = "root/intermediate/leaf/leaf.pem" then some [1]
    else if s = "root/intermediate/intermediate.pem" then some [2]
    else if s = "root/root.pem" then some [3]
    else none

/-- Environment in which every filesystem oracle reports absence and every
temp-file / subprocess step succeeds. -/
def envBase : Env :=
  ⟨fun _ => none, fun _ => none, fun _ _ _ => none, none, true, true, true⟩

/-- P12 environment: leaf certificate readable, temp file allocated as
`/tmp/certshop1`, but the write to the temp file FAILS. -/
def env1w : Env :=
  ⟨fun _ => none, cbLeaf, fun _ _ _ => none, some "/tmp/certshop1", false, true, true⟩

/-- P12 environment: as `env1w` but the temp-file write succeeds and the
`openssl` invocation FAILS. -/
def env1r : Env :=
  ⟨fun _ => none, cbLeaf, fun _ _ _ => none, some "/tmp/certshop1", true, false, true⟩

/-- P12 environment: every step succeeds. -/
def env1ok : Env :=
  ⟨fun _ => none, cbLeaf, fun _ _ _ => none, some "/tmp/certshop1", true, true, true⟩

/-- P12 environment: every step succeeds except the final `os.Remove`. -/
def env1rm : Env :=
  ⟨fun _ => none, cbLeaf, fun _ _ _ => none, some "/tmp/certshop1", true, true, false⟩

/-- Environment for the `root/intermediate/leaf` archive scenario. -/
def envChain : Env :=
  ⟨fun _ => none, cbChain, fun _ _ _ => none, none, true, true, true⟩

/-- Environment for the P12 external-CA scenario: `ca` is a directory,
`ca/ca.pem` a regular file whose certificate bytes are readable; the composed
double-join path is absent. -/
def env9 : Env :=
  ⟨fun s =>
      if s = "ca" then some FKind.dir
      else if s = "ca/ca.pem" then some FKind.file
      else none,
    fun s =>
      if s = "leaf/leaf.pem" then some [1]
      else if s = "ca/ca.pem" then some [2]
      else none,
    fun _ _ _ => none, some "/tmp/certshop9", true, true, true⟩

/-- A stat oracle under which both `"a"` and `"./a"` name the same regular
file (as the operating system would report). -/
def statDotA : String → Option FKind :=
  fun s => if s = "a" ∨ s = "./a" then some FKind.file else none

/-- A stat oracle with a single regular file `"b"`. -/
def statB : String → Option FKind :=
  fun s => if s = "b" then some FKind.file else none

/-- Flags: target `leaf`, format p12, output password supplied, no CA. -/
def flagsP12 : ExportFlags := ⟨pathLeaf, false, false, "", "p12", nilString, "pw"⟩

/-- Flags: target `leaf`, format p12, output password NOT supplied. -/
def flagsC3 : ExportFlags := ⟨pathLeaf, false, false, "", "p12", nilString, nilString⟩

/-- Flags: the `root/intermediate/leaf` archive scenario of the spec
(`-export-crt`, format pem). -/
def flagsC4w : ExportFlags := ⟨pChain, true, false, "", "pem", nilString, nilString⟩

/-- Flags: an export request in which `-export-ca` was NOT supplied, so the
flag still holds the `nilString` sentinel (`parseExportFlags` default). -/
def flagsC6 : ExportFlags := ⟨pathLeaf, true, false, nilString, "pem", nilString, nilString⟩

/-- Flags: as `flagsC6` but with `-export-ca=` given explicitly empty, the
only value the code's `!= ""` guard treats as "no CA". -/
def flagsC6b : ExportFlags := ⟨pathLeaf, false, false, "", "pem", nilString, nilString⟩

/-- Flags: the format flag left at its default value `"tgz"`, with
certificate and key export requested. -/
def flagsC7tgz : ExportFlags :=
  ⟨pathLeaf, true, true, "", defaultExportFormat, nilString, nilString⟩

/-- Flags: format `"PEM"` (upper case), certificate export requested. -/
def flagsC7pem : ExportFlags := ⟨pathLeaf, true, false, "", "PEM", nilString, nilString⟩

/-- Flags: format `"P12"` (upper case), no output password. -/
def flagsC7p12 : ExportFlags := ⟨pathLeaf, false, false, "", "P12", nilString, nilString⟩

/-- Flags: p12 export of `leaf` with `-export-ca=ca` (a directory). -/
def flagsC9 : ExportFlags := ⟨pathLeaf, false, false, "ca", "p12", nilString, "pw"⟩

/-- Flags: p12 export with key export requested and no output password. -/
def flagsC10a : ExportFlags := ⟨pathLeaf, false, true, "", "p12", nilString, nilString⟩

/-- Flags: as `flagsC10a` but with key export NOT requested. -/
def flagsC10b : ExportFlags := ⟨pathLeaf, false, false, "", "p12", nilString, nilString⟩

/-! ### Path lemmas -/

theorem slash_append_ne_dot (s : String) : ("/" ++ s) ≠ "." := by
  intro h
  have h2 := congrArg String.data h
  simp [String.data_append] at h2

theorem append_slash_ne_dot (c r : String) (hc : c ≠ "") : (c ++ "/" ++ r) ≠ "." := by
  intro h
  have h2 := congrArg String.data h
  simp only [String.data_append] at h2
  cases hd : c.data with
  | nil =>
    apply hc
    cases c
    simp_all
  | cons x xs =>
    rw [hd] at h2
    simp at h2

theorem interc_ne_dot {cs : List String} (hne : cs ≠ []) (hdot : "." ∉ cs)
    (hemp : "" ∉ cs) : interc cs ≠ "." := by
  match cs with
  | [] => exact absurd rfl hne
  | [c] =>
    have : c ≠ "." := fun h => hdot (by simp [h])
    simpa [interc] using this
  | c :: d :: t =>
    have hc : c ≠ "" := fun h => hemp (by simp [h])
    simpa [interc] using append_slash_ne_dot c (interc (d :: t)) hc

theorem render_eq_dot_iff (p : GoPath) (hdot : "." ∉ p.comps) (hemp : "" ∉ p.comps) :
    GoPath.render p = "." ↔ (p.abs = false ∧ p.comps = []) := by
  obtain ⟨ab, cs⟩ := p
  simp only at hdot hemp
  cases ab with
  | true =>
    have hr : GoPath.render ⟨true, cs⟩ = "/" ++ interc cs := rfl
    rw [hr]
    constructor
    · intro h; exact absurd h (slash_append_ne_dot _)
    · intro h; exact absurd h.1 (by simp)
  | false =>
    cases cs with
    | nil => simp [GoPath.render]
    | cons c t =>
      simp only [GoPath.render]
      constructor
      · intro h
        exact absurd h (interc_ne_dot (by simp) hdot hemp)
      · intro h; exact absurd h.2 (by simp)

theorem base_eq_dot_iff (p : GoPath) (hdot : "." ∉ p.comps) :
    GoPath.base p = "." ↔ (p.abs = false ∧ p.comps = []) := by
  obtain ⟨ab, cs⟩ := p
  simp only at hdot
  cases hcs : cs with
  | nil =>
    cases ab <;> simp [GoPath.base]
  | cons c t =>
    have hne : cs ≠ [] := by simp [hcs]
    have : GoPath.base ⟨ab, cs⟩ = cs.getLast hne := by
      simp only [GoPath.base]
      rw [List.getLast?_eq_getLast cs hne]
    rw [hcs] at hdot
    rw [← hcs]
    rw [this]
    constructor
    · intro h
      exact absurd (h ▸ List.getLast_mem hne) (hcs ▸ hdot)
    · intro h
      exact absurd (hcs ▸ h.2) (by simp [hcs])

theorem dir_abs (p : GoPath) : (GoPath.dir p).abs = p.abs := rfl

/-! ### Chain lemmas -/

theorem chainFiles_nil (p : GoPath) (h : p.comps = []) : chainFiles p = [] := by
  unfold chainFiles
  rw [h]
  rfl

theorem chainFiles_cons (p : GoPath) (h : p.comps ≠ []) :
    chainFiles p =
      GoPath.render (joinName p (GoPath.base p ++ ".pem")) :: chainFiles (GoPath.dir p) := by
  have hpos : 0 < p.comps.length := List.length_pos.mpr h
  have hlen : p.comps.length = (p.comps.length - 1) + 1 := by omega
  unfold chainFiles
  rw [hlen]
  simp only [chainFilesN]
  rw [if_neg h]
  have hd : (GoPath.dir p).comps.length = p.comps.length - 1 := by
    simp [GoPath.dir, List.length_dropLast]
  rw [hd]

theorem chainData_nil (cb : String → Option (List Nat)) (p : GoPath)
    (h : p.comps = []) : chainData cb p = [] := by
  unfold chainData
  rw [h]
  rfl

theorem chainData_cons (cb : String → Option (List Nat)) (p : GoPath) (h : p.comps ≠ []) :
    chainData cb p =
      (cb (GoPath.render (joinName p (GoPath.base p ++ ".pem")))).getD [] ++
        chainData cb (GoPath.dir p) := by
  have hpos : 0 < p.comps.length := List.length_pos.mpr h
  have hlen : p.comps.length = (p.comps.length - 1) + 1 := by omega
  unfold chainData
  rw [hlen]
  simp only [chainDataN]
  rw [if_neg h]
  have hd : (GoPath.dir p).comps.length = p.comps.length - 1 := by
    simp [GoPath.dir, List.length_dropLast]
  rw [hd]

/-! ### Walk lemmas -/

theorem base_nil_rel (p : GoPath) (habs : p.abs = false) (hnil : p.comps = []) :
    GoPath.base p = "." := by
  obtain ⟨ab, cs⟩ := p
  simp only at habs hnil
  subst habs
  subst hnil
  rfl

theorem render_nil_rel (p : GoPath) (habs : p.abs = false) (hnil : p.comps = []) :
    GoPath.render p = "." := by
  obtain ⟨ab, cs⟩ := p
  simp only at habs hnil
  subst habs
  subst hnil
  rfl

theorem walkPem_ok (cb : String → Option (List Nat)) (fuel : Nat) :
    ∀ p : GoPath, p.abs = false → "." ∉ p.comps → p.comps.length ≤ fuel →
      (∀ f ∈ chainFiles p, (cb f).isSome = true) →
      walkCertsPEM cb fuel p =
        ((chainFiles p).map Event.readE, WalkOut.ok (chainData cb p)) := by
  induction fuel with
  | zero =>
    intro p habs hdot hlen hcb
    have hnil : p.comps = [] := List.eq_nil_of_length_eq_zero (Nat.le_zero.mp hlen)
    simp [walkCertsPEM, base_nil_rel p habs hnil, chainFiles_nil p hnil,
      chainData_nil cb p hnil]
  | succ n ih =>
    intro p habs hdot hlen hcb
    by_cases hnil : p.comps = []
    · simp [walkCertsPEM, base_nil_rel p habs hnil, chainFiles_nil p hnil,
        chainData_nil cb p hnil]
    · have hbase : GoPath.base p ≠ "." := by
        intro h
        exact hnil ((base_eq_dot_iff p hdot).mp h).2
      have hmem : GoPath.render (joinName p (GoPath.base p ++ ".pem")) ∈ chainFiles p := by
        rw [chainFiles_cons p hnil]
        exact List.mem_cons_self _ _
      obtain ⟨bs, hbs⟩ := Option.isSome_iff_exists.mp (hcb _ hmem)
      have hrec := ih (GoPath.dir p)
        (by rw [dir_abs]; exact habs)
        (fun hm => hdot ((List.dropLast_sublist _).subset hm))
        (by
          have := List.length_pos.mpr hnil
          simp only [GoPath.dir, List.length_dropLast]
          omega)
        (fun f hf => hcb f (by rw [chainFiles_cons p hnil]; exact List.mem_cons_of_mem _ hf))
      simp only [walkCertsPEM]
      rw [if_neg hbase]
      simp only [hbs, hrec]
      rw [chainFiles_cons p hnil, chainData_cons cb p hnil, hbs]
      simp

theorem walkP12_ok (cb : String → Option (List Nat)) (fuel : Nat) :
    ∀ p : GoPath, p.abs = false → "." ∉ p.comps → "" ∉ p.comps →
      p.comps.length ≤ fuel →
      (∀ f ∈ chainFiles p, (cb f).isSome = true) →
      walkCertsP12 cb fuel p =
        ((chainFiles p).map Event.readE, WalkOut.ok (chainData cb p)) := by
  induction fuel with
  | zero =>
    intro p habs hdot hemp hlen hcb
    have hnil : p.comps = [] := List.eq_nil_of_length_eq_zero (Nat.le_zero.mp hlen)
    simp [walkCertsP12, render_nil_rel p habs hnil, chainFiles_nil p hnil,
      chainData_nil cb p hnil]
  | succ n ih =>
    intro p habs hdot hemp hlen hcb
    by_cases hnil : p.comps = []
    · simp [walkCertsP12, render_nil_rel p habs hnil, chainFiles_nil p hnil,
        chainData_nil cb p hnil]
    · have hrender : GoPath.render p ≠ "." := by
        intro h
        exact hnil ((render_eq_dot_iff p hdot hemp).mp h).2
      have hmem : GoPath.render (joinName p (GoPath.base p ++ ".pem")) ∈ chainFiles p := by
        rw [chainFiles_cons p hnil]
        exact List.mem_cons_self _ _
      obtain ⟨bs, hbs⟩ := Option.isSome_iff_exists.mp (hcb _ hmem)
      have hrec := ih (GoPath.dir p)
        (by rw [dir_abs]; exact habs)
        (fun hm => hdot ((List.dropLast_sublist _).subset hm))
        (fun hm => hemp ((List.dropLast_sublist _).subset hm))
        (by
          have := List.length_pos.mpr hnil
          simp only [GoPath.dir, List.length_dropLast]
          omega)
        (fun f hf => hcb f (by rw [chainFiles_cons p hnil]; exact List.mem_cons_of_mem _ hf))
      simp only [walkCertsP12]
      rw [if_neg hrender]
      simp only [hbs, hrec]
      rw [chainFiles_cons p hnil, chainData_cons cb p hnil, hbs]
      simp

theorem walkPem_no_fuelOut (cb : String → Option (List Nat)) (fuel : Nat) :
    ∀ p : GoPath, p.abs = false → p.comps.length ≤ fuel →
      (walkCertsPEM cb fuel p).2 ≠ WalkOut.fuelOut := by
  induction fuel with
  | zero =>
    intro p habs hlen
    have hnil : p.comps = [] := List.eq_nil_of_length_eq_zero (Nat.le_zero.mp hlen)
    simp [walkCertsPEM, base_nil_rel p habs hnil]
  | succ n ih =>
    intro p habs hlen
    by_cases hb : GoPath.base p = "."
    · simp [walkCertsPEM, hb]
    · have hnil : p.comps ≠ [] := fun h => hb (base_nil_rel p habs h)
      have ihd := ih (GoPath.dir p) (by rw [dir_abs]; exact habs)
        (by
          have := List.length_pos.mpr hnil
          simp only [GoPath.dir, List.length_dropLast]
          omega)
      simp only [walkCertsPEM]
      rw [if_neg hb]
      cases hc : cb (GoPath.render (joinName p (GoPath.base p ++ ".pem"))) with
      | none => simp
      | some bs =>
        cases hw : walkCertsPEM cb n (GoPath.dir p) with
        | mk evs r =>
          rw [hw] at ihd
          cases r with
          | ok rest => simp
          | readFail => simp
          | fuelOut => exact absurd rfl ihd

theorem walkP12_no_fuelOut (cb : String → Option (List Nat)) (fuel : Nat) :
    ∀ p : GoPath, p.abs = false → p.comps.length ≤ fuel →
      (walkCertsP12 cb fuel p).2 ≠ WalkOut.fuelOut := by
  induction fuel with
  | zero =>
    intro p habs hlen
    have hnil : p.comps = [] := List.eq_nil_of_length_eq_zero (Nat.le_zero.mp hlen)
    simp [walkCertsP12, render_nil_rel p habs hnil]
  | succ n ih =>
    intro p habs hlen
    by_cases hb : GoPath.render p = "."
    · simp [walkCertsP12, hb]
    · have hnil : p.comps ≠ [] := fun h => hb (render_nil_rel p habs h)
      have ihd := ih (GoPath.dir p) (by rw [dir_abs]; exact habs)
        (by
          have := List.length_pos.mpr hnil
          simp only [GoPath.dir, List.length_dropLast]
          omega)
      simp only [walkCertsP12]
      rw [if_neg hb]
      cases hc : cb (GoPath.render (joinName p (GoPath.base p ++ ".pem"))) with
      | none => simp
      | some bs =>
        cases hw : walkCertsP12 cb n (GoPath.dir p) with
        | mk evs r =>
          rw [hw] at ihd
          cases r with
          | ok rest => simp
          | readFail => simp
          | fuelOut => exact absurd rfl ihd

theorem walkPem_abs_no_ok (cb : String → Option (List Nat)) (fuel : Nat) :
    ∀ p : GoPath, p.abs = true → "." ∉ p.comps →
      ∀ d, (walkCertsPEM cb fuel p).2 ≠ WalkOut.ok d := by
  induction fuel with
  | zero =>
    intro p habs hdot d
    have hb : GoPath.base p ≠ "." := by
      intro h
      have := ((base_eq_dot_iff p hdot).mp h).1
      rw [habs] at this
      exact Bool.noConfusion this
    simp [walkCertsPEM, hb]
  | succ n ih =>
    intro p habs hdot d
    have hb : GoPath.base p ≠ "." := by
      intro h
      have := ((base_eq_dot_iff p hdot).mp h).1
      rw [habs] at this
      exact Bool.noConfusion this
    simp only [walkCertsPEM]
    rw [if_neg hb]
    cases hc : cb (GoPath.render (joinName p (GoPath.base p ++ ".pem"))) with
    | none => simp
    | some bs =>
      cases hw : walkCertsPEM cb n (GoPath.dir p) with
      | mk evs r =>
        have ihd := ih (GoPath.dir p) (by rw [dir_abs]; exact habs)
          (fun hm => hdot ((List.dropLast_sublist _).subset hm))
        cases r with
        | ok rest => exact absurd (by rw [hw]) (ihd rest)
        | readFail => simp
        | fuelOut => simp

theorem walkP12_abs_no_ok (cb : String → Option (List Nat)) (fuel : Nat) :
    ∀ p : GoPath, p.abs = true →
      ∀ d, (walkCertsP12 cb fuel p).2 ≠ WalkOut.ok d := by
  induction fuel with
  | zero =>
    intro p habs d
    have hb : GoPath.render p ≠ "." := by
      obtain ⟨ab, cs⟩ := p
      simp only at habs
      subst habs
      exact slash_append_ne_dot (interc cs)
    simp [walkCertsP12, hb]
  | succ n ih =>
    intro p habs d
    have hb : GoPath.render p ≠ "." := by
      obtain ⟨ab, cs⟩ := p
      simp only at habs
      subst habs
      exact slash_append_ne_dot (interc cs)
    simp only [walkCertsP12]
    rw [if_neg hb]
    cases hc : cb (GoPath.render (joinName p (GoPath.base p ++ ".pem"))) with
    | none => simp
    | some bs =>
      cases hw : walkCertsP12 cb n (GoPath.dir p) with
      | mk evs r =>
        have ihd := ih (GoPath.dir p) (by rw [dir_abs]; exact habs)
        cases r with
        | ok rest => exact absurd (by rw [hw]) (ihd rest)
        | readFail => simp
        | fuelOut => simp

/-! ### Shared helper lemmas about the export functions -/

theorem exportP12_nil_passout (env : Env) (fuel : Nat) (flags : ExportFlags)
    (hpw : flags.passOut = nilString) :
    exportP12 env fuel flags = ([Event.fatal failPassOut], Outcome.exited, false) := by
  simp [exportP12, hpw]

theorem findFile_noTmpCreate (stat : String → Option FKind) (path suffix : String) :
    noTmpCreate (findFile stat path suffix).1 = true := by
  unfold findFile
  dsimp only
  split
  · simp [noTmpCreate, isTmpCreate]
  · simp [noTmpCreate, isTmpCreate]
  · split <;> simp [noTmpCreate, isTmpCreate]

/-! ### Claim theorems -/

/-- C1. The claim states that whenever the P12 export creates its temporary
bundle file, the file no longer exists after the export is done, on ALL exit
paths including a failed temp-file write and a failed toolchain invocation.
The code violates this: `log.Fatalf` exits the process without running
deferred functions, and the deferred `os.Remove` is registered only after the
temp-file write. This theorem evaluates the embedding at the failing inputs:
with a failed temp-file write (`env1w`) and with a failed `openssl` run
(`env1r`) the temp file still exists at process exit, while on the successful
path (`env1ok`) it is removed, and a failed removal (`env1rm`) is escalated as
a fatal error with the file left in place. -/
theorem c1_temp_file_leak :
    exportP12 env1w 2 flagsP12 =
      ([Event.readE "leaf/leaf.pem", Event.tmpCreate "/tmp/certshop1",
        Event.fatal failTmpWrite], Outcome.exited, true)
    ∧ (exportP12 env1r 2 flagsP12).2.2 = true
    ∧ (exportP12 env1r 2 flagsP12).2.1 = Outcome.exited
    ∧ (exportP12 env1ok 2 flagsP12).2.2 = false
    ∧ Event.tmpRemove "/tmp/certshop1" ∈ (exportP12 env1ok 2 flagsP12).1
    ∧ (exportP12 env1rm 2 flagsP12).2.2 = true
    ∧ Event.fatal failTmpRemove ∈ (exportP12 env1rm 2 flagsP12).1 := by
  decide

/-- C5 counterexample. The claim states the chain walk stops exactly when the
current directory's basename equals the current directory itself. At the
single-component path `root` the basename (`"root"`) equals the rendered path
itself, yet neither walk stops there: both read `root/root.pem` and continue
to `"."` (the loops stop on `"."`, not on basename-equals-path). -/
theorem c5_walk_stop_counterexample :
    GoPath.base pRoot = GoPath.render pRoot
    ∧ walkCertsPEM cb0 5 pRoot = ([Event.readE "root/root.pem"], WalkOut.ok [])
    ∧ walkCertsP12 cb0 5 pRoot = ([Event.readE "root/root.pem"], WalkOut.ok []) := by
  decide

/-- C6. The claim states that when the external-CA flag still holds the
not-supplied sentinel, no CA resolution is attempted and no `ca.pem` entry is
written. The code compares `flags.exportCA` against the EMPTY string, not the
sentinel, so with the flag unsupplied (`exportCA = nilString`) the
orchestrator calls `findFile` on the sentinel string and dies with
"Failed to find ca certificate" before even opening the sink; only an
explicitly empty `-export-ca=` avoids the resolution. -/
theorem c6_sentinel_ca_resolution_attempted :
    exportCertificate envBase 2 flagsC6 =
      ([Event.statE nilString, Event.fatal failFindCA], Outcome.exited, false)
    ∧ exportCertificate envBase 2 flagsC6b =
      ([Event.openSink, Event.closeSink], Outcome.ok, false) := by
  decide

/-- C7. The claim states every export request is dispatched to exactly one of
the two encoders. The format switch has cases `"pem"` and `"p12"` (matched
after lower-casing) and NO default case, while the flag's default value is
`"tgz"`: with the default format no encoder runs at all — the export silently
writes an empty archive and reports success, even though certificate and key
export were requested (`flagsC7tgz`). The two recognized formats do dispatch,
case-insensitively (`flagsC7pem`, `flagsC7p12`). -/
theorem c7_default_format_no_encoder :
    exportCertificate envChain 2 flagsC7tgz =
      ([Event.openSink, Event.closeSink], Outcome.ok, false)
    ∧ exportCertificate env1ok 2 flagsC7pem =
      ([Event.openSink, Event.readE "leaf/leaf.pem",
        Event.writeEntry "leaf/cert.pem" [1] 420, Event.closeSink],
        Outcome.ok, false)
    ∧ exportCertificate env1ok 2 flagsC7p12 =
      ([Event.openSink, Event.fatal failPassOut], Outcome.exited, false) := by
  decide

/-- C8 counterexample. The claim states the resolver returns the path
UNCHANGED when it names a regular file. Under a stat oracle where `./a` and
`a` name the same regular file, resolving `./a` returns the cleaned path `a`,
not the input. -/
theorem c8_resolver_counterexample :
    statDotA "./a" = some FKind.file
    ∧ (findFile statDotA "./a" ".pem").2 = Except.ok "a"
    ∧ "a" ≠ "./a" := by
  refine ⟨rfl, rfl, by decide⟩

/-- C9. The claim states that for a P12 export with an external CA, the
bundle buffer ends with the bytes of the CA certificate the orchestrator
resolved. The code instead re-applies the directory naming convention to the
already-resolved file path: with `-export-ca=ca` the orchestrator resolves
`ca` to the regular file `ca/ca.pem`, but `exportP12` then reads
`Join("ca/ca.pem", Base("ca/ca.pem")+".pem") = "ca/ca.pem/ca.pem.pem"`, a path
that cannot name the resolved certificate (it treats the file as a
directory), so the read fails fatally and the resolved CA bytes (present in
the environment) are never read or appended. -/
theorem c9_p12_ca_wrong_path :
    exportCertificate env9 3 flagsC9 =
      ([Event.statE "ca", Event.statE "ca/ca.pem", Event.openSink,
        Event.readE "leaf/leaf.pem", Event.readE "ca/ca.pem/ca.pem.pem",
        Event.fatal failReadCert], Outcome.exited, false)
    ∧ env9.certBytes "ca/ca.pem" = some [2]
    ∧ Event.readE "ca/ca.pem" ∉ (exportCertificate env9 3 flagsC9).1
    ∧ goJoin "ca/ca.pem" (goBase "ca/ca.pem" ++ ".pem") = "ca/ca.pem/ca.pem.pem" := by
  decide

theorem noTmpCreate_append (a b : List Event) :
    noTmpCreate (a ++ b) = (noTmpCreate a && noTmpCreate b) := by
  simp [noTmpCreate]

/-- C2. With format p12, key export enabled and the output password left at
the not-supplied sentinel, the P12 encoder rejects the request fatally as its
very first action — its trace is exactly the fatal event, so no file is read,
written or created before the rejection — and at the orchestrator level no
temporary bundle file is ever created for such a request (the only I/O that
can precede the rejection is the orchestrator's stat-based CA resolution). -/
theorem c2_p12_missing_passout_rejected (env : Env) (fuel : Nat) (flags : ExportFlags)
    (hfmt : strToLower flags.exportFormat = "p12")
    (hkey : flags.exportKey = true)
    (hpw : flags.passOut = nilString) :
    exportP12 env fuel flags = ([Event.fatal failPassOut], Outcome.exited, false)
    ∧ noTmpCreate (exportCertificate env fuel flags).1 = true
    ∧ (exportCertificate env fuel flags).2.2 = false := by
  have hp12 := exportP12_nil_passout env fuel flags hpw
  have hmain : noTmpCreate (exportCertificate env fuel flags).1 = true
      ∧ (exportCertificate env fuel flags).2.2 = false := by
    unfold exportCertificate
    by_cases hca : flags.exportCA = ""
    · rw [if_neg (not_not_intro hca)]
      dsimp only
      rw [hfmt]
      rw [if_neg (by decide : ¬(("p12" : String) = "pem"))]
      rw [if_pos (rfl : ("p12" : String) = "p12")]
      rw [hp12]
      refine ⟨by decide, rfl⟩
    · rw [if_pos hca]
      cases hff : findFile env.stat flags.exportCA ".pem" with
      | mk evs res =>
        have hnt := findFile_noTmpCreate env.stat flags.exportCA ".pem"
        rw [hff] at hnt
        dsimp only at hnt
        cases res with
        | error e =>
          dsimp only
          rw [noTmpCreate_append, hnt]
          refine ⟨by decide, rfl⟩
        | ok p =>
          dsimp only
          rw [hfmt]
          rw [if_neg (by decide : ¬(("p12" : String) = "pem"))]
          rw [if_pos (rfl : ("p12" : String) = "p12")]
          have hp12b := exportP12_nil_passout env fuel { flags with exportCA := p } hpw
          rw [hp12b]
          dsimp only
          rw [noTmpCreate_append, noTmpCreate_append, hnt]
          refine ⟨by decide, rfl⟩
  exact ⟨hp12, hmain.1, hmain.2⟩

/-- C2 witness: concrete instance with the p12 format, key export enabled and
no output password. -/
def flagsC2w : ExportFlags := ⟨pathLeaf, false, true, "", "p12", nilString, nilString⟩

/-- Witness for C2 at a concrete request. -/
theorem c2_p12_missing_passout_rejected_witness :
    exportP12 envBase 1 flagsC2w = ([Event.fatal failPassOut], Outcome.exited, false)
    ∧ noTmpCreate (exportCertificate envBase 1 flagsC2w).1 = true
    ∧ (exportCertificate envBase 1 flagsC2w).2.2 = false :=
  c2_p12_missing_passout_rejected envBase 1 flagsC2w (by decide) (by decide) (by decide)

/-- C3. The claim states the output sink is opened once and closed exactly
once on the success path AND on every failure path out of the encoding step.
The code opens the sink once, but its deferred `writer.close()` runs only on a
normal return: a fatal exit inside an encoder goes through
`log.Fatalf`/`os.Exit`, which skips deferred calls. On the failure path shown
here (p12 encoding rejected for the missing output password, for any
environment) the trace contains the open but NO close; the success-path
contrast shows open and close each happening exactly once. -/
theorem c3_sink_not_closed_on_failure (env : Env) (fuel : Nat) :
    exportCertificate env fuel flagsC3 =
      ([Event.openSink, Event.fatal failPassOut], Outcome.exited, false)
    ∧ (exportCertificate env1ok 2 flagsP12).1.count Event.closeSink = 1
    ∧ (exportCertificate env1ok 2 flagsP12).1.count Event.openSink = 1 := by
  refine ⟨rfl, by decide, by decide⟩

theorem exportPEMrest_cert_entry (env : Env) (fuel : Nat) (flags : ExportFlags)
    (name : String)
    (habs : flags.path.abs = false) (hdot : "." ∉ flags.path.comps)
    (hcrt : flags.exportCrt = true)
    (hlen : flags.path.comps.length ≤ fuel)
    (hreads : ∀ f ∈ chainFiles flags.path, (env.certBytes f).isSome = true) :
    Event.writeEntry (entryJoin name "cert.pem") (chainData env.certBytes flags.path) 420
      ∈ (exportPEMrest env fuel flags name).1 := by
  have hwalk := walkPem_ok env.certBytes fuel flags.path habs hdot hlen hreads
  unfold exportPEMrest
  rw [hcrt]
  rw [if_pos rfl]
  rw [hwalk]
  dsimp only
  by_cases hkey : flags.exportKey = true
  · rw [hkey]
    rw [if_pos rfl]
    cases hs : env.stat (GoPath.render (joinName flags.path (name ++ "-key.pem"))) with
    | none => simp
    | some k =>
      cases hkb : env.keyBytes (GoPath.render (joinName flags.path (name ++ "-key.pem")))
          flags.passIn flags.passOut with
      | none => simp
      | some kb => simp
  · rw [if_neg hkey]
    simp

/-- C4. For an archive export with certificate export requested on a relative
canonical target whose chain files all read successfully (and whose CA entry,
if requested, is readable, so that the encoder reaches the chain step), the
encoder writes the `cert.pem` entry under `basename(target)/` with data equal
to the leaf-first concatenation of the per-node certificate bytes: the
target's own `<base>.pem` first, then its parent's, then each further
ancestor's (`chainFiles`/`chainData` are literally of this cons form). -/
theorem c4_cert_chain_leaf_first (env : Env) (fuel : Nat) (flags : ExportFlags)
    (habs : flags.path.abs = false) (hdot : "." ∉ flags.path.comps)
    (hcrt : flags.exportCrt = true)
    (hcab : flags.exportCA = "" ∨ (env.certBytes flags.exportCA).isSome = true)
    (hlen : flags.path.comps.length ≤ fuel)
    (hreads : ∀ f ∈ chainFiles flags.path, (env.certBytes f).isSome = true) :
    Event.writeEntry (entryJoin (GoPath.base flags.path) "cert.pem")
        (chainData env.certBytes flags.path) 420 ∈ (exportPEM env fuel flags).1 := by
  have hrest := exportPEMrest_cert_entry env fuel flags (GoPath.base flags.path)
    habs hdot hcrt hlen hreads
  unfold exportPEM
  dsimp only
  by_cases hca : flags.exportCA = ""
  · rw [if_neg (not_not_intro hca)]
    dsimp only
    cases hr : exportPEMrest env fuel flags (GoPath.base flags.path) with
    | mk evs o =>
      rw [hr] at hrest
      simpa using hrest
  · rw [if_pos hca]
    rcases hcab with hc | hc
    · exact absurd hc hca
    · obtain ⟨ca, hcav⟩ := Option.isSome_iff_exists.mp hc
      rw [hcav]
      dsimp only
      cases hr : exportPEMrest env fuel flags (GoPath.base flags.path) with
      | mk evs o =>
        rw [hr] at hrest
        simp only [List.mem_append]
        right
        simpa using hrest

/-- Witness for C4: the spec scenario, target `root/intermediate/leaf` with
`-export-crt` in pem format — the `leaf/cert.pem` entry carries the bytes of
`leaf.pem`, then `intermediate.pem`, then `root.pem`, in that order. -/
theorem c4_cert_chain_leaf_first_witness :
    Event.writeEntry (entryJoin (GoPath.base flagsC4w.path) "cert.pem")
        (chainData envChain.certBytes flagsC4w.path) 420
      ∈ (exportPEM envChain 3 flagsC4w).1
    ∧ chainData envChain.certBytes flagsC4w.path = [1, 2, 3]
    ∧ entryJoin (GoPath.base flagsC4w.path) "cert.pem" = "leaf/cert.pem"
    ∧ chainFiles flagsC4w.path =
        ["root/intermediate/leaf/leaf.pem", "root/intermediate/intermediate.pem",
          "root/root.pem"] :=
  ⟨c4_cert_chain_leaf_first envChain 3 flagsC4w (by decide) (by decide) (by decide)
      (Or.inl (by decide)) (by decide) (by decide),
    by decide, by decide, by decide⟩

/-- C5 amended. What actually holds: (i) for every RELATIVE canonical target
the two chain walks terminate within `comps.length` steps; (ii) on canonical
paths the pem walk's stop condition (basename is the literal `"."`) and the
p12 walk's stop condition (the path renders as the literal `"."`) hold exactly
at the relative empty path `"."` — not at every point where the basename
equals the path itself (a single-component relative path such as `root` also
has that property, yet the walk continues through it, see the
counterexample); (iii) for ABSOLUTE targets the stop conditions never hold
and the walks can never complete normally. -/
theorem c5_walk_termination_amended (cb : String → Option (List Nat)) (fuel : Nat)
    (p : GoPath) :
    (p.abs = false → p.comps.length ≤ fuel →
      (walkCertsPEM cb fuel p).2 ≠ WalkOut.fuelOut
      ∧ (walkCertsP12 cb fuel p).2 ≠ WalkOut.fuelOut)
    ∧ ("." ∉ p.comps → (GoPath.base p = "." ↔ (p.abs = false ∧ p.comps = [])))
    ∧ ("." ∉ p.comps → "" ∉ p.comps →
      (GoPath.render p = "." ↔ (p.abs = false ∧ p.comps = [])))
    ∧ (p.abs = true → "." ∉ p.comps →
      ∀ d, (walkCertsPEM cb fuel p).2 ≠ WalkOut.ok d
        ∧ (walkCertsP12 cb fuel p).2 ≠ WalkOut.ok d) :=
  ⟨fun h1 h2 => ⟨walkPem_no_fuelOut cb fuel p h1 h2, walkP12_no_fuelOut cb fuel p h1 h2⟩,
    fun hd => base_eq_dot_iff p hd,
    fun hd he => render_eq_dot_iff p hd he,
    fun ha hd d => ⟨walkPem_abs_no_ok cb fuel p ha hd d, walkP12_abs_no_ok cb fuel p ha d⟩⟩

/-- Witness for the amended C5: the walk from `root` terminates, the stop
condition is exactly "the path is `.`" (false at `root`), and from the
absolute path `/a` the walks never complete normally. -/
theorem c5_walk_termination_amended_witness :
    ((walkCertsPEM cb0 3 pRoot).2 ≠ WalkOut.fuelOut
      ∧ (walkCertsP12 cb0 3 pRoot).2 ≠ WalkOut.fuelOut)
    ∧ (GoPath.base pRoot = "." ↔ (pRoot.abs = false ∧ pRoot.comps = []))
    ∧ ((walkCertsPEM cb0 3 pAbsA).2 ≠ WalkOut.ok []
      ∧ (walkCertsP12 cb0 3 pAbsA).2 ≠ WalkOut.ok []) :=
  ⟨(c5_walk_termination_amended cb0 3 pRoot).1 (by decide) (by decide),
    (c5_walk_termination_amended cb0 3 pRoot).2.1 (by decide),
    (c5_walk_termination_amended cb0 3 pAbsA).2.2.2 (by decide) (by decide) []⟩

/-- C8 amended. The resolver's actual contract: it first CLEANS the path
(`filepath.Clean`); if the cleaned path stats as a regular file it returns the
cleaned path — so a path already in canonical form (in particular any previous
resolver output) is returned unchanged, which is the idempotence the claim
derives; if it stats as a directory, the composed `path/Base(path)+suffix`
must stat as a regular file and is returned; a failed stat of either form
propagates as a stat (not-found) error; a composed path that stats as a
directory is a structure error. -/
theorem c8_find_file_amended (stat : String → Option FKind) (path suffix : String) :
    (stat (goClean path).render = none →
      (findFile stat path suffix).2 = Except.error (FindErr.statErr (goClean path).render))
    ∧ (stat (goClean path).render = some FKind.file →
      (findFile stat path suffix).2 = Except.ok (goClean path).render)
    ∧ ((goClean path).render = path → stat path = some FKind.file →
      (findFile stat path suffix).2 = Except.ok path)
    ∧ (stat (goClean path).render = some FKind.dir →
      (stat (joinName (goClean path) (GoPath.base (goClean path) ++ suffix)).render = none →
        (findFile stat path suffix).2 =
          Except.error (FindErr.statErr
            (joinName (goClean path) (GoPath.base (goClean path) ++ suffix)).render))
      ∧ (stat (joinName (goClean path) (GoPath.base (goClean path) ++ suffix)).render =
          some FKind.dir →
        (findFile stat path suffix).2 =
          Except.error (FindErr.isDirErr
            (joinName (goClean path) (GoPath.base (goClean path) ++ suffix)).render))
      ∧ (stat (joinName (goClean path) (GoPath.base (goClean path) ++ suffix)).render =
          some FKind.file →
        (findFile stat path suffix).2 =
          Except.ok (joinName (goClean path) (GoPath.base (goClean path) ++ suffix)).render)) := by
  refine ⟨fun h => ?_, fun h => ?_, fun hcl hst => ?_,
    fun h => ⟨fun h2 => ?_, fun h2 => ?_, fun h2 => ?_⟩⟩
  · simp [findFile, h]
  · simp [findFile, h]
  · have h : stat (goClean path).render = some FKind.file := by rw [hcl]; exact hst
    simp [findFile, h, hcl, hst]
  · simp [findFile, h, h2]
  · simp [findFile, h, h2]
  · simp [findFile, h, h2]

/-- Witness for the amended C8: resolving the canonical file path `b` returns
it unchanged. -/
theorem c8_find_file_amended_witness :
    (findFile statB "b" ".pem").2 = Except.ok "b" :=
  (c8_find_file_amended statB "b" ".pem").2.2.1 (by decide) (by decide)

/-- C10. The P12 encoder ignores the key-export flag entirely: the `-inkey`
argument pair with `target/basename(target)-key.pem` is always part of the
constructed `openssl` invocation, the encoder's behaviour is identical for any
two flag records agreeing on target path, CA, and the two passwords (in
particular, differing only in `exportKey`), and the output password is
unconditionally required — its absence is fatal irrespective of `exportKey`. -/
theorem c10_p12_ignores_export_key (env : Env) (fuel : Nat) (f g : ExportFlags)
    (hpath : f.path = g.path) (hca : f.exportCA = g.exportCA)
    (hin : f.passIn = g.passIn) (hout : f.passOut = g.passOut) :
    List.IsInfix
      ["-inkey", GoPath.render (joinName f.path (GoPath.base f.path ++ "-key.pem"))]
      (p12Args f)
    ∧ exportP12 env fuel f = exportP12 env fuel g
    ∧ (f.passOut = nilString →
      exportP12 env fuel f = ([Event.fatal failPassOut], Outcome.exited, false)) := by
  refine ⟨?_, ?_, fun h => exportP12_nil_passout env fuel f h⟩
  · exact ⟨["pkcs12", "-export", "-name", GoPath.base f.path], p12ArgsTail f, by
      simp [p12Args]⟩
  · obtain ⟨p1, c1, k1, ca1, fm1, pi1, po1⟩ := f
    obtain ⟨p2, c2, k2, ca2, fm2, pi2, po2⟩ := g
    simp only at hpath hca hin hout
    subst hpath
    subst hca
    subst hin
    subst hout
    rfl

/-- Witness for C10: two concrete flag records differing only in the
key-export flag produce identical P12 encoder behaviour, the `-inkey` pair is
present, and the missing output password is fatal although key export is what
differs. -/
theorem c10_p12_ignores_export_key_witness :
    List.IsInfix
      ["-inkey", GoPath.render (joinName flagsC10a.path (GoPath.base flagsC10a.path ++ "-key.pem"))]
      (p12Args flagsC10a)
    ∧ exportP12 envBase 1 flagsC10a = exportP12 envBase 1 flagsC10b
    ∧ exportP12 envBase 1 flagsC10a = ([Event.fatal failPassOut], Outcome.exited, false) := by
  have h := c10_p12_ignores_export_key envBase 1 flagsC10a flagsC10b rfl rfl rfl rfl
  exact ⟨h.1, h.2.1, h.2.2 rfl⟩
